import Mathlib

/-!
# Shallow embedding of the tram interpreter (lexer, parser, executor)

This file embeds the data model and the operations of the tram scripting
language implementation in Lean 4 and proves properties of the embedding.

Translation conventions, chosen once and used throughout:

* `f64` payloads are modelled as `Int`.  IEEE-754 doubles (NaN, signed
  zero, rounding) have no faithful shallow embedding here; none of the
  theorems below depends on the numeric result of `Div`, `Pow` or `Mod`,
  nor on float-specific equality.
* Rust `Vec` push/pop-at-end structures (`LocalStack.markers`,
  `LocalStack.locals`) are stored as Lean lists with the MOST RECENT
  element at the head, mirroring the `iter().rev()` scans of the source.
* Rust panics (`panic!`, `expect`, `unreachable!`, a failed `assert_eq!`)
  are modelled as an explicit `fatal` / `panicked` outcome.
* The executor and the parser contain loops and recursion that need not
  terminate, so both are fuel-indexed; running out of fuel yields a
  distinguished `timeout` outcome, never confused with normal results.
* `Rc`/`Handle` pointer identity (only used for `Function` equality and
  map-key hashing) cannot be expressed without a heap; function-function
  equality is modelled as `false` for distinct syntactic occurrences.
  No theorem below depends on it.
* `src/fe/ast.rs` and `src/fe/token.rs` are stale relative to
  `src/fe/parse.rs` and `src/executor.rs` (they lack the `Error` node,
  the `scoped` flag on `Block`, `BinOp::Access`, `UnOp::Sub`, and the
  `Loop`/`Break` token variants that `parse.rs` matches on).  The AST
  and token types below follow the constructors that `parse.rs` and
  `executor.rs` actually use; the lexer embedding follows `lexer.rs`
  as written, so it never produces the `Loop`/`Break` tokens.
-/

/-- Runtime errors of the executor, from `executor.rs` (`enum RuntimeError`). -/
inductive RuntimeError where
  | cannotAdd
  | incorrectNumberOfArgs
  | notAFunction
  | notANumber
  | notAString
  | notAMap
deriving DecidableEq, Repr

/-- Binary operators of the AST (`BinOp` in `ast.rs`, plus `Access`
which `parse.rs` and `executor.rs` use). -/
inductive BinOp where
  | add | sub | mul | div | pow | mod
  | eq | gt | gtEq | lt | ltEq
  | and | or
  | access
deriving DecidableEq, Repr

/-- Unary operators (`UnOp`); `parse.rs` and `executor.rs` also use `Sub`. -/
inductive UnOp where
  | not
  | sub
deriving DecidableEq, Repr

mutual

/-- Runtime values, from `value.rs` (`enum Value`).  `Number(f64)` is
modelled with `Int`; `String`/`Array`/`Map` handles are modelled by
their contents (no claim settled here depends on aliasing). -/
inductive Value where
  | number (n : Int)
  | string (s : String)
  | bool (b : Bool)
  | array (elems : List Value)
  | map (entries : List (Value × Value))
  | function (f : Func)
  | nil

/-- A user-defined function, from `function.rs` (`struct Function`).
Native (host) functions belong to the out-of-scope corelib and are not
modelled. -/
inductive Func where
  | mk (name : Option String) (params : List String) (body : AstNode)

/-- AST nodes as consumed by `executor.rs` and produced by `parse.rs`
(the words if and break are Lean keywords, hence `ifExpr` / `breakNode`). -/
inductive AstNode where
  | call (func : AstNode) (args : List AstNode)
  | value (v : Value)
  | ident (name : String)
  | assign (name : String) (v : AstNode)
  | binary (op : BinOp) (a b : AstNode)
  | unary (op : UnOp) (a : AstNode)
  | ifExpr (cond then_ : AstNode) (or_ : Option AstNode)
  | block (stmts : List Statement) (isScoped : Bool)
  | loop (label : Option String) (cond : Option AstNode) (run : AstNode)
  | breakNode (label : Option String)
  | error

/-- Statements: currently only expression statements (`enum Statement`). -/
inductive Statement where
  | expression (e : AstNode)

end

/-- The scope stack, from `executor.rs` (`struct LocalStack`).  Both
vectors are stored most-recent-first (head = top of the Rust `Vec`). -/
structure LocalStack where
  markers : List Nat
  locals : List (String × Value)

/-- `LocalStack::get`: scan bindings from most-recently-added backward,
first match wins, `Nil` if unbound. -/
def LocalStack.get (s : LocalStack) (key : String) : Value :=
  match s.locals.find? (fun l => l.1 == key) with
  | some l => l.2
  | none => .nil

/-- `LocalStack::exists`. -/
def LocalStack.has (s : LocalStack) (key : String) : Bool :=
  s.locals.any (fun l => l.1 == key)

/-- `LocalStack::push`: record the current number of bindings as a marker. -/
def LocalStack.push (s : LocalStack) : LocalStack :=
  { s with markers := s.locals.length :: s.markers }

/-- `LocalStack::pop`: truncate the bindings back to the most recent
marker; `none` models the `expect("popped nonexistant scope")` panic.
In the head-first representation, truncating the Rust `Vec` to length
`m` keeps the LAST `m` list elements. -/
def LocalStack.pop? (s : LocalStack) : Option LocalStack :=
  match s.markers with
  | [] => none
  | m :: rest => some ⟨rest, s.locals.drop (s.locals.length - m)⟩

/-- The inner scan of `LocalStack::set`: rebind the nearest (most
recent) existing binding of `name` in place. -/
def rebindNearest (name : String) (val : Value) :
    List (String × Value) → List (String × Value)
  | [] => []
  | (n, v) :: rest =>
    if n == name then (n, val) :: rest
    else (n, v) :: rebindNearest name val rest

/-- `LocalStack::set`: rebind the nearest existing binding if one
exists anywhere in the stack, otherwise push a new binding. -/
def LocalStack.set (s : LocalStack) (name : String) (val : Value) : LocalStack :=
  if s.locals.any (fun l => l.1 == name) then
    { s with locals := rebindNearest name val s.locals }
  else
    { s with locals := (name, val) :: s.locals }

/-- The executor's exit flag (`enum ExitFlag`); `Continue`/`Break` are
Lean keywords, hence `cont`/`brk`. -/
inductive ExitFlag where
  | cont
  | exit
  | brk (label : Option String)

/-- The mutable state of the `VM`: the scope stack and the exit flag. -/
structure VMState where
  locals : LocalStack
  exitFlag : ExitFlag

/-- Outcome of a fueled evaluation step.  `err` and `ok` carry the VM
state at that point (Rust returns `Result` while mutating `&mut self`);
`fatal` models a panic, `timeout` models fuel exhaustion. -/
inductive Res (α : Type) where
  | ok (val : α) (st : VMState)
  | err (e : RuntimeError) (st : VMState)
  | fatal
  | timeout

/-- Sequencing that mirrors Rust's `?` operator: errors, panics and
timeouts propagate unchanged. -/
def Res.bind {α β : Type} : Res α → (α → VMState → Res β) → Res β
  | .ok v st, f => f v st
  | .err e st, _ => .err e st
  | .fatal, _ => .fatal
  | .timeout, _ => .timeout

/-- `Value::truthy`: `Nil` and `Bool(false)` are the only falsy values. -/
def Value.truthy : Value → Bool
  | .number _ | .map _ | .string _ | .array _ | .function _ => true
  | .bool b => b
  | .nil => false

/-- `Value::num`: narrow to a number or fail with `NotANumber`. -/
def Value.num? : Value → Except RuntimeError Int
  | .number n => .ok n
  | _ => .error .notANumber

mutual

/-- The `PartialEq` implementation of `Value` (`value.rs`).  Two maps
compare equal through the discriminant fallback arm; two functions
compare by pointer identity, modelled here as `false` (no settled claim
evaluates function equality). -/
def valueEq : Value → Value → Bool
  | .number a, .number b => a == b
  | .string a, .string b => a == b
  | .bool a, .bool b => a == b
  | .array a, .array b => valueListEq a b
  | .function _, .function _ => false
  | .map _, .map _ => true
  | .nil, .nil => true
  | _, _ => false

/-- `Vec<Value>` equality: equal length and elementwise equal. -/
def valueListEq : List Value → List Value → Bool
  | [], [] => true
  | a :: as_, b :: bs => valueEq a b && valueListEq as_ bs
  | _, _ => false

end

/-- `HashMap::get` over the modelled map: first entry whose key is
`Value`-equal to `k`. -/
def mapGet (entries : List (Value × Value)) (k : Value) : Option Value :=
  (entries.find? (fun e => valueEq e.1 k)).map (fun e => e.2)

/-- `Value::num_op` specialised to the total arithmetic closures the
executor passes to it. -/
def numOp (a b : Value) (f : Int → Int → Int) : Except RuntimeError Value := do
  let x ← a.num?
  let y ← b.num?
  .ok (.number (f x y))

/-- The pure part of the `Binary` arm of `VM::execute`: combine two
already-evaluated operands.  `Div`/`Pow`/`Mod` results use integer
stand-ins for the float operations (see the header). -/
def applyBinOp : BinOp → Value → Value → Except RuntimeError Value
  | .add, a, b =>
    match a, b with
    | .array xs, .array ys => .ok (.array (xs ++ ys))
    | .string x, .string y => .ok (.string (x ++ y))
    | .number x, .number y => .ok (.number (x + y))
    | _, _ => .error .cannotAdd
  | .sub, a, b => numOp a b (fun x y => x - y)
  | .mul, a, b => numOp a b (fun x y => x * y)
  | .div, a, b => numOp a b (fun x y => x / y)
  | .pow, a, b => numOp a b (fun x y => x ^ y.toNat)
  | .mod, a, b => numOp a b (fun x y => x % y)
  | .eq, a, b => .ok (.bool (valueEq a b))
  | .gt, a, b => do
    let x ← a.num?
    let y ← b.num?
    .ok (.bool (x > y))
  | .gtEq, a, b => do
    let x ← a.num?
    let y ← b.num?
    .ok (.bool (x ≥ y))
  | .lt, a, b => do
    let x ← a.num?
    let y ← b.num?
    .ok (.bool (x < y))
  | .ltEq, a, b => do
    let x ← a.num?
    let y ← b.num?
    .ok (.bool (x ≤ y))
  | .and, a, b => .ok (.bool (a.truthy && b.truthy))
  | .or, a, b => .ok (.bool (a.truthy || b.truthy))
  | .access, a, b =>
    match a with
    | .map entries =>
      match mapGet entries b with
      | some v => .ok v
      | none => .ok .nil
    | _ => .error .notAMap

/-- The break check at the top of each `Loop` iteration
(`executor.rs` lines 217-222): a `Break` flag matches the loop unless
both the loop and the flag carry labels and the labels differ.  In
particular a labeled break matches an UNLABELED loop (the `else`
branch sets `should_break = true`). -/
def breakMatches (label : Option String) (flag : ExitFlag) : Bool :=
  match flag with
  | .brk elabel =>
    match label, elabel with
    | some l1, some l2 => l1 == l2
    | _, _ => true
  | _ => false

/-- The pure part of the `Unary` arm of `VM::execute`. -/
def applyUnOp : UnOp → Value → Except RuntimeError Value
  | .not, v => .ok (.bool (!v.truthy))
  | .sub, v =>
    match v.num? with
    | .ok n => .ok (.number (-n))
    | .error e => .error e

/-- The parameter-binding loop of `Function::call`: `set` each
parameter name to the corresponding argument, positionally. -/
def bindParams (params : List String) (vals : List Value)
    (ls : LocalStack) : LocalStack :=
  (params.zip vals).foldl (fun acc pv => acc.set pv.1 pv.2) ls

/-- The tail of `Function::call` (`function.rs` lines 38-40): run the
body, then pop the scope — on the `Ok` path and on the `Err` path
alike (`let val = vm.execute(..); vm.locals.pop(); val`); a pop with
no marker left is the `expect` panic. -/
def popThen : Res Value → Res Value
  | .ok v st5 =>
    match st5.locals.pop? with
    | some ls => .ok v { st5 with locals := ls }
    | none => .fatal
  | .err e st5 =>
    match st5.locals.pop? with
    | some ls => .err e { st5 with locals := ls }
    | none => .fatal
  | .fatal => .fatal
  | .timeout => .timeout

/-- The argument-evaluation loop of the `Call` arm: left to right,
stopping at the first error. -/
def runArgs (ev : VMState → AstNode → Res Value) :
    List AstNode → VMState → Res (List Value)
  | [], st => .ok [] st
  | a :: rest, st =>
    (ev st a).bind fun v st1 =>
      (runArgs ev rest st1).bind fun vs st2 => .ok (v :: vs) st2

/-- The statement loop of the `Block` arm: evaluate in order, keep the
last value, propagate the first error (leaving the state as it was at
the error, which skips the trailing scope pop). -/
def runStmts (ev : VMState → AstNode → Res Value) :
    List Statement → Value → VMState → Res Value
  | [], out, st => .ok out st
  | .expression x :: rest, _, st =>
    (ev st x).bind fun v st1 => runStmts ev rest v st1

/-- Fueled embedding of `VM::execute` (`executor.rs`), including
`Function::call` (`function.rs`) inlined at the `Call` arm exactly as
the source composes them.  One unit of fuel is consumed per recursive
`execute` entry; `timeout` means the Rust program would still be
running. -/
def exec : Nat → VMState → AstNode → Res Value
  | 0, _, _ => .timeout
  | fuel + 1, st, a =>
    match a with
    | .call f args =>
      (exec fuel st f).bind fun fv st1 =>
        (runArgs (exec fuel) args st1).bind fun vs st2 =>
          match fv with
          | .function (.mk _name params body) =>
            -- Function::call, function.rs lines 30-41: push FIRST, then
            -- the arity check (an arity error leaves the scope pushed),
            -- then bind parameters, run the body, and pop on both the
            -- ok and the err path of the body.
            let st3 : VMState := { st2 with locals := st2.locals.push }
            if vs.length ≠ params.length then
              .err .incorrectNumberOfArgs st3
            else
              let st4 : VMState :=
                { st3 with locals := bindParams params vs st3.locals }
              popThen (exec fuel st4 body)
          | _ => .err .notAFunction st2
    | .value v => .ok v st
    | .ident i => .ok (st.locals.get i) st
    | .assign n v =>
      (exec fuel st v).bind fun val st1 =>
        .ok .nil { st1 with locals := st1.locals.set n val }
    | .binary op a b =>
      (exec fuel st a).bind fun va st1 =>
        (exec fuel st1 b).bind fun vb st2 =>
          match applyBinOp op va vb with
          | .ok v => .ok v st2
          | .error e => .err e st2
    | .unary op a =>
      (exec fuel st a).bind fun v st1 =>
        match applyUnOp op v with
        | .ok r => .ok r st1
        | .error e => .err e st1
    | .ifExpr cond then_ or_ =>
      (exec fuel st cond).bind fun c st1 =>
        if c.truthy then exec fuel st1 then_
        else
          match or_ with
          | some o => exec fuel st1 o
          | none => .ok .nil st1
    | .block stmts isScoped =>
      let st1 := if isScoped then { st with locals := st.locals.push } else st
      (runStmts (exec fuel) stmts .nil st1).bind fun out st2 =>
        if isScoped then
          match st2.locals.pop? with
          | some ls => .ok out { st2 with locals := ls }
          | none => .fatal
        else
          .ok out st2
    | .loop label cond run =>
      -- Loop arm, executor.rs lines 215-237: check the exit flag at the
      -- top of each iteration.
      if breakMatches label st.exitFlag then
        .ok .nil { st with exitFlag := .cont }
      else
        match cond with
        | some c =>
          (exec fuel st c).bind fun v st1 =>
            if v.truthy then
              (exec fuel st1 run).bind fun _ st2 =>
                exec fuel st2 (.loop label cond run)
            else
              exec fuel st1 (.loop label cond run)
        | none =>
          (exec fuel st run).bind fun _ st1 =>
            exec fuel st1 (.loop label cond run)
    | .breakNode label => .ok .nil { st with exitFlag := .brk label }
    | .error => .fatal

/-!
## Front end: tokens, the lexer's keyword table, and the parser

Tokens follow `token.rs` constructor-for-constructor, with two additions,
`Loop` and `Break`: `parse.rs` dispatches on `Token::Loop` and
`Token::Break`, which `token.rs` (a stale file) does not declare.  The
lexer embedding below follows `lexer.rs` as written and never produces
them.
-/

/-- Token kinds from `token.rs`, plus the `Loop`/`Break` variants that
`parse.rs` requires (see the section comment). -/
inductive Token where
  | Let | Const | Pub | Use | Func | Enum | Struct | If | Else
  | String (s : String)
  | Number (n : Int)
  | True | False | Nil
  | Arrow | Assign | Eq | Gt | GtEq | Lt | LtEq | Dot | Question | At
  | Comma | Semicolon | Not | NotEq | Add | AddEq | Sub | SubEq
  | Mul | MulEq | Div | DivEq | Pow | PowEq | Mod | ModEq | And | Or
  | Identifier (s : String)
  | LParen | RParen | LBrace | RBrace | LBracket | RBracket
  | Start | Eof
  | Loop | Break

/-- The keyword table of `Lexer::identifier` (`lexer.rs` lines 145-161):
an identifier-shaped lexeme is matched against exactly these twelve
words; everything else — including `loop` and `break` — becomes an
`Identifier` token. -/
def classifyWord (s : String) : Token :=
  match s with
  | "let" => .Let
  | "const" => .Const
  | "pub" => .Pub
  | "use" => .Use
  | "func" => .Func
  | "enum" => .Enum
  | "struct" => .Struct
  | "if" => .If
  | "else" => .Else
  | "true" => .True
  | "false" => .False
  | "nil" => .Nil
  | other => .Identifier other

/-- The precedence constants of `parse.rs` (`precs!` macro), low to high. -/
def precNONE : Nat := 0
/-- Assignment precedence. -/
def precASSIGN : Nat := 1
/-- Logical-or precedence. -/
def precOR : Nat := 2
/-- Logical-and precedence. -/
def precAND : Nat := 3
/-- Equality precedence. -/
def precEQ : Nat := 4
/-- Comparison precedence. -/
def precCOMP : Nat := 5
/-- Additive precedence. -/
def precTERM : Nat := 6
/-- Multiplicative precedence. -/
def precFACTOR : Nat := 7
/-- Power precedence. -/
def precPOW : Nat := 8
/-- Unary precedence. -/
def precUNARY : Nat := 9
/-- Call precedence. -/
def precCALL : Nat := 10
/-- Member-access precedence. -/
def precDOT : Nat := 11
/-- Primary precedence. -/
def precPRIMARY : Nat := 12

/-- `Token::prec` from `parse.rs`: the binding precedence of an
upcoming token; `NONE` for tokens with no infix role. -/
def Token.prec : Token → Nat
  | .Add | .Sub => precTERM
  | .Mul | .Div | .Mod => precFACTOR
  | .Pow => precPOW
  | .Gt | .GtEq | .Lt | .LtEq => precCOMP
  | .Eq => precEQ
  | .And => precAND
  | .Or => precOR
  | .Assign | .AddEq | .SubEq | .MulEq | .DivEq | .PowEq | .ModEq => precASSIGN
  | .LParen => precCALL
  | .Dot => precDOT
  | _ => precNONE

/-- The discriminant of a token, one number per constructor, used to
model `std::mem::discriminant` comparison in `Parser::pick`. -/
def Token.discrim : Token → Nat
  | .Let => 0 | .Const => 1 | .Pub => 2 | .Use => 3 | .Func => 4
  | .Enum => 5 | .Struct => 6 | .If => 7 | .Else => 8
  | .String _ => 9 | .Number _ => 10 | .True => 11 | .False => 12 | .Nil => 13
  | .Arrow => 14 | .Assign => 15 | .Eq => 16 | .Gt => 17 | .GtEq => 18
  | .Lt => 19 | .LtEq => 20 | .Dot => 21 | .Question => 22 | .At => 23
  | .Comma => 24 | .Semicolon => 25 | .Not => 26 | .NotEq => 27
  | .Add => 28 | .AddEq => 29 | .Sub => 30 | .SubEq => 31
  | .Mul => 32 | .MulEq => 33 | .Div => 34 | .DivEq => 35
  | .Pow => 36 | .PowEq => 37 | .Mod => 38 | .ModEq => 39
  | .And => 40 | .Or => 41 | .Identifier _ => 42
  | .LParen => 43 | .RParen => 44 | .LBrace => 45 | .RBrace => 46
  | .LBracket => 47 | .RBracket => 48 | .Start => 49 | .Eof => 50
  | .Loop => 51 | .Break => 52

/-- Structural equality of tokens (Rust's derived `PartialEq`): equal
payloads for the three payload-carrying constructors, and the same
constructor otherwise.  (Written by hand: the automatically derived
decidable equality for a 53-constructor type is impractically large.) -/
def Token.beq : Token → Token → Bool
  | .String a, .String b => a == b
  | .Number a, .Number b => a == b
  | .Identifier a, .Identifier b => a == b
  | a, b => a.discrim == b.discrim

instance : BEq Token := ⟨Token.beq⟩

/-- A source span, from `diagnostic.rs` (`end` is a Lean keyword,
hence `stop`). -/
structure Span where
  start : Nat
  stop : Nat
deriving DecidableEq, Repr

/-- A parse diagnostic, from `diagnostic.rs`. -/
structure ParseError where
  span : Span
  message : String
deriving DecidableEq, Repr

/-- The parser state: the not-yet-pulled remainder of the token stream
(standing in for the pull-based lexer), the two-token lookahead window,
its spans, and the accumulated diagnostics (`struct Parser`). -/
structure ParserSt where
  toks : List (Token × Span)
  current : Token
  next : Token
  currentSpan : Span
  nextSpan : Span
  errors : List ParseError

/-- Pull one token from the stream; an exhausted stream keeps yielding
`Eof`, as the lexer does at end of input. -/
def pullTok : List (Token × Span) → (Token × Span) × List (Token × Span)
  | [] => ((Token.Eof, ⟨0, 0⟩), [])
  | t :: rest => (t, rest)

/-- `Parser::new`: seed the window with `Start` and one pulled token. -/
def ParserSt.new (ts : List (Token × Span)) : ParserSt :=
  let (t, rest) := pullTok ts
  { toks := rest
    current := .Start
    next := t.1
    currentSpan := ⟨0, 0⟩
    nextSpan := t.2
    errors := [] }

/-- `Parser::advance`: shift the window and pull the next token. -/
def ParserSt.advance (st : ParserSt) : ParserSt :=
  let (t, rest) := pullTok st.toks
  { st with
    toks := rest
    current := st.next
    currentSpan := st.nextSpan
    next := t.1
    nextSpan := t.2 }

/-- `Parser::pick`: advance when the upcoming token has the wanted
discriminant (payloads are ignored, as with `std::mem::discriminant`). -/
def ParserSt.pick (st : ParserSt) (tok : Token) : Bool × ParserSt :=
  if tok.discrim == st.next.discrim then (true, st.advance) else (false, st)

/-- `Parser::error`: append a diagnostic carrying the current span.
The caller pairs this state with an `Error` placeholder node. -/
def ParserSt.pushErr (st : ParserSt) (m : String) : ParserSt :=
  { st with errors := st.errors ++ [⟨st.currentSpan, m⟩] }

/-- Outcome of a fueled parsing function: a result with the new parser
state, a panic (`assert_eq!` / `unreachable!`), or fuel exhaustion. -/
inductive PRes (α : Type) where
  | ok (val : α) (st : ParserSt)
  | panicked
  | timeout

/-- Sequencing for parser outcomes. -/
def PRes.bind {α β : Type} : PRes α → (α → ParserSt → PRes β) → PRes β
  | .ok v st, f => f v st
  | .panicked, _ => .panicked
  | .timeout, _ => .timeout

/-- `Parser::literal`: the current token must be a literal; any other
token hits the `unreachable!` panic. -/
def literalFn (st : ParserSt) : PRes AstNode :=
  match st.current with
  | .Number n => .ok (.value (.number n)) st
  | .String s => .ok (.value (.string s)) st
  | .True => .ok (.value (.bool true)) st
  | .False => .ok (.value (.bool false)) st
  | .Nil => .ok (.value .nil) st
  | _ => .panicked

/-- `Parser::ident`. -/
def identFn (st : ParserSt) : PRes AstNode :=
  match st.current with
  | .Identifier s => .ok (.ident s) st
  | _ => .ok .error (st.pushErr "expected an identifier")

/-- `Parser::dot_expr`: member access sugar; the right-hand side
becomes a string-literal key. -/
def dotFn (lhs : AstNode) (st : ParserSt) : PRes AstNode :=
  match st.next with
  | .Identifier i =>
    .ok (.binary .access lhs (.value (.string i))) st.advance
  | _ => .ok .error (st.pushErr "identifier expected following `.`")


/-- One frame of the parser's mutual recursion.  Each constructor
corresponds to one recursive function of `parse.rs`; they all produce
an AST node, so the whole mutual nest is embedded as the single
fuel-structural function `parseStep` below (wrappers with the source
names follow). -/
inductive ParseCall where
  | withPrec (prec : Nat)
  | climb (prec : Nat) (node : AstNode)
  | assign (lhs : AstNode) (rhsPrec : Nat)
  | binary (lhs : AstNode) (rhsPrec : Nat)
  | unary
  | callArgs (funcNode : AstNode) (args : List AstNode)
  | func
  | funcParams (name : Option String) (params : List String)
  | funcBody (name : Option String) (params : List String)
  | ifE
  | loopE
  | block (expectEnd isScoped : Bool) (stmts : List Statement)

/-- The parser's recursive core.  One unit of fuel is consumed per
mutual call, so a `timeout` means the Rust parser would still be
running; `panicked` models a failed `assert_eq!` or `unreachable!`. -/
def parseStep : Nat → ParseCall → ParserSt → PRes AstNode
  | 0, _, _ => .timeout
  | fuel + 1, c, st =>
    match c with
    -- `Parser::parse_with_prec`: advance, dispatch a prefix handler on
    -- the new current token, then fold infix operators (`climb`).
    | .withPrec prec =>
      let st := st.advance
      (match st.current with
        | .Number _ | .String _ | .True | .False | .Nil => literalFn st
        | .Identifier _ => identFn st
        | .Func => parseStep fuel .func st
        | .If => parseStep fuel .ifE st
        | .Loop => parseStep fuel .loopE st
        | .LBrace => parseStep fuel (.block true true []) st
        | .Break => .ok (.breakNode none) st
        | .Not | .Sub => parseStep fuel .unary st
        | _ => .ok .error (st.pushErr "unexpected token")
      ).bind fun node st1 => parseStep fuel (.climb prec node) st1
    -- The while loop of `parse_with_prec`: while the upcoming token
    -- binds at least as tightly as `prec`, advance and dispatch the
    -- infix handler of the operator now in `current`, passing
    -- `current.prec + 1` as the right-hand minimum precedence.
    | .climb prec node =>
      if prec ≤ st.next.prec then
        let st1 := st.advance
        let p := st1.current.prec
        if p == precNONE then
          .ok .error (st1.pushErr "has no infix value")
        else
          (if p == precCALL then parseStep fuel (.callArgs node []) st1
           else if p == precDOT then dotFn node st1
           else if p == precASSIGN then parseStep fuel (.assign node (p + 1)) st1
           else parseStep fuel (.binary node (p + 1)) st1
          ).bind fun node2 st2 => parseStep fuel (.climb prec node2) st2
      else
        .ok node st
    -- `Parser::assign`: only a plain identifier is a valid target; the
    -- operator in `current` selects an optional compound `BinOp`.
    | .assign lhs rhsPrec =>
      match lhs with
      | .ident s =>
        let op : Option BinOp :=
          match st.current with
          | .AddEq => some .add
          | .SubEq => some .sub
          | .MulEq => some .mul
          | .DivEq => some .div
          | .PowEq => some .pow
          | .ModEq => some .mod
          | _ => none
        (parseStep fuel (.withPrec rhsPrec) st).bind fun rhs st1 =>
          let value :=
            match op with
            | some o => AstNode.binary o lhs rhs
            | none => rhs
          .ok (.assign s value) st1
      | _ => .ok .error (st.pushErr "invalid assignment target")
    -- `Parser::binary`.
    | .binary lhs rhsPrec =>
      let op? : Option BinOp :=
        match st.current with
        | .Add => some .add
        | .Sub => some .sub
        | .Mul => some .mul
        | .Div => some .div
        | .Mod => some .mod
        | .Pow => some .pow
        | .Eq => some .eq
        | .Gt => some .gt
        | .GtEq => some .gtEq
        | .Lt => some .lt
        | .LtEq => some .ltEq
        | .And => some .and
        | .Or => some .or
        | _ => none
      match op? with
      | some op =>
        (parseStep fuel (.withPrec rhsPrec) st).bind fun rhs st1 =>
          .ok (.binary op lhs rhs) st1
      | none => .ok .error (st.pushErr "no binary expression implemented")
    -- `Parser::unary`.
    | .unary =>
      let op? : Option UnOp :=
        match st.current with
        | .Not => some .not
        | .Sub => some .sub
        | _ => none
      match op? with
      | some op =>
        (parseStep fuel (.withPrec precASSIGN) st).bind fun expr st1 =>
          .ok (.unary op expr) st1
      | none => .ok .error (st.pushErr "no unary expression implemented")
    -- The argument loop of `Parser::call`: expressions until `)`, a
    -- diagnostic (not a panic) when a comma is missing.
    | .callArgs funcNode args =>
      let (gotR, st1) := st.pick .RParen
      if gotR then
        .ok (.call funcNode args) st1
      else
        (parseStep fuel (.withPrec precASSIGN) st1).bind fun argNode st2 =>
          let args2 := args ++ [argNode]
          if st2.next == Token.RParen then
            parseStep fuel (.callArgs funcNode args2) st2
          else
            let (gotC, st3) := st2.pick .Comma
            if gotC then parseStep fuel (.callArgs funcNode args2) st3
            else .ok .error (st3.pushErr "expected comma after expression")
    -- `Parser::func`, first half: optional name, then `(`.
    | .func =>
      let (name, st1) :=
        match st.next with
        | .Identifier s => (some s, st.advance)
        | _ => (none, st)
      let (gotL, st2) := st1.pick .LParen
      if gotL then parseStep fuel (.funcParams name []) st2
      else .ok .error (st2.pushErr "expected `(` to start argument list")
    -- The parameter loop of `Parser::func`.  A parameter not followed
    -- by `)` must be followed by a comma: the source asserts this with
    -- `assert_eq!(self.next, Token::Comma)`, so a missing comma is a
    -- panic, not a diagnostic.
    | .funcParams name params =>
      let (gotR, st1) := st.pick .RParen
      if gotR then
        parseStep fuel (.funcBody name params) st1
      else
        let st2 := st1.advance
        match st2.current with
        | .Identifier id =>
          let params2 := params ++ [id]
          if st2.next == Token.RParen then
            parseStep fuel (.funcParams name params2) st2
          else if st2.next == Token.Comma then
            parseStep fuel (.funcParams name params2) st2.advance
          else
            .panicked
        | _ => .ok .error (st2.pushErr "expected identifier in argument list")
    -- `Parser::func`, second half: the `{`-delimited body, the function
    -- value, and the named-function lowering to an UNSCOPED block of an
    -- assignment followed by a lookup.
    | .funcBody name params =>
      let (gotB, st1) := st.pick .LBrace
      if gotB then
        (parseStep fuel (.block true true []) st1).bind fun body st2 =>
          let fnValue := AstNode.value (.function (.mk name params body))
          match name with
          | some n =>
            .ok (.block [.expression (.assign n fnValue),
                         .expression (.ident n)] false) st2
          | none => .ok fnValue st2
      else
        .ok .error (st1.pushErr "expected \x7b to open the function block")
    -- `Parser::if_expr`: condition, brace-delimited then block,
    -- optional `else` followed by a block or a nested `if`.
    | .ifE =>
      (parseStep fuel (.withPrec precASSIGN) st).bind fun cond st1 =>
        let (gotB, st2) := st1.pick .LBrace
        if gotB then
          (parseStep fuel (.block true true []) st2).bind fun then_ st3 =>
            let (gotE, st4) := st3.pick .Else
            if gotE then
              let (gotB2, st5) := st4.pick .LBrace
              if gotB2 then
                (parseStep fuel (.block true true []) st5).bind fun orB st6 =>
                  .ok (.ifExpr cond then_ (some orB)) st6
              else
                let (gotI, st6) := st5.pick .If
                if gotI then
                  (parseStep fuel .ifE st6).bind fun orI st7 =>
                    .ok (.ifExpr cond then_ (some orI)) st7
                else
                  .ok (.ifExpr cond then_ (some .error))
                    (st6.pushErr "expected block or if expression after `else`")
            else
              .ok (.ifExpr cond then_ none) st4
        else
          .ok .error (st2.pushErr "expected \x7b to open then block after if condition")
    -- `Parser::loop_expr`: label and condition are hard-coded `None`; a
    -- missing `{` records a diagnostic whose Error node is DISCARDED
    -- (the source ignores `self.error`'s return value and parses the
    -- body anyway).
    | .loopE =>
      let (gotB, st1) := st.pick .LBrace
      let st2 := if gotB then st1 else st1.pushErr "expected \x7b to open loop"
      (parseStep fuel (.block true true []) st2).bind fun run st3 =>
        .ok (.loop none none run) st3
    -- `Parser::block`: collect statements until the closing `}` (when
    -- `expectEnd`) or end of input; at end of input with `expectEnd`
    -- the whole block becomes an Error node plus a diagnostic.
    | .block expectEnd isScoped stmts =>
      let (gotR, st1) := if expectEnd then st.pick .RBrace else (false, st)
      if gotR then
        .ok (.block stmts isScoped) st1
      else
        let (gotE, st2) := st1.pick .Eof
        if gotE then
          if expectEnd then .ok .error (st2.pushErr "expected closing \x7d")
          else .ok (.block stmts isScoped) st2
        else
          (parseStep fuel (.withPrec precASSIGN) st2).bind fun e st3 =>
            parseStep fuel (.block expectEnd isScoped (stmts ++ [.expression e])) st3

/-- `Parser::parse_with_prec`. -/
def parseWithPrec (fuel prec : Nat) (st : ParserSt) : PRes AstNode :=
  parseStep fuel (.withPrec prec) st

/-- `Parser::expression`: parse at assignment precedence. -/
def expressionFn (fuel : Nat) (st : ParserSt) : PRes AstNode :=
  parseStep fuel (.withPrec precASSIGN) st

/-- `Parser::assign`, as dispatched by the infix loop. -/
def assignFn (fuel : Nat) (lhs : AstNode) (rhsPrec : Nat) (st : ParserSt) :
    PRes AstNode :=
  parseStep fuel (.assign lhs rhsPrec) st

/-- `Parser::func`. -/
def funcFn (fuel : Nat) (st : ParserSt) : PRes AstNode :=
  parseStep fuel .func st

/-- `Parser::block`. -/
def blockFn (fuel : Nat) (expectEnd isScoped : Bool) (st : ParserSt) :
    PRes AstNode :=
  parseStep fuel (.block expectEnd isScoped []) st

/-- `Parser::parse_all`: parse a top-level unscoped block that ends at
end of input, and return it with the accumulated diagnostics. -/
def parseAll (fuel : Nat) (ts : List (Token × Span)) :
    PRes (AstNode × List ParseError) :=
  match blockFn fuel false false (ParserSt.new ts) with
  | .ok ast st => .ok (ast, st.errors) st
  | .panicked => .panicked
  | .timeout => .timeout

/-- Extract the diagnostics list from a completed parse. -/
def parsedDiags : PRes (AstNode × List ParseError) → Option (List ParseError)
  | .ok (_, errs) _ => some errs
  | _ => none

/-- Extract the root AST node from a completed parse. -/
def parsedRoot : PRes (AstNode × List ParseError) → Option AstNode
  | .ok (ast, _) _ => some ast
  | _ => none

/-- Token stream of `a = b = c` (spans are byte offsets in that text). -/
def chainToks : List (Token × Span) :=
  [(.Identifier "a", ⟨0, 1⟩), (.Assign, ⟨2, 3⟩), (.Identifier "b", ⟨4, 5⟩),
   (.Assign, ⟨6, 7⟩), (.Identifier "c", ⟨8, 9⟩), (.Eof, ⟨9, 9⟩)]

/-- Token stream of `a = b`. -/
def simpleAssignToks : List (Token × Span) :=
  [(.Identifier "a", ⟨0, 1⟩), (.Assign, ⟨2, 3⟩), (.Identifier "b", ⟨4, 5⟩),
   (.Eof, ⟨5, 5⟩)]

/-- Token stream of `func f(a b) {}`: a parameter list whose
parameters are not separated by commas. -/
def funcParamToks : List (Token × Span) :=
  [(.Func, ⟨0, 4⟩), (.Identifier "f", ⟨5, 6⟩), (.LParen, ⟨6, 7⟩),
   (.Identifier "a", ⟨7, 8⟩), (.Identifier "b", ⟨9, 10⟩), (.RParen, ⟨10, 11⟩),
   (.LBrace, ⟨12, 13⟩), (.RBrace, ⟨13, 14⟩), (.Eof, ⟨14, 14⟩)]

/-- An unlabeled loop whose body increments `k` and then issues the
labeled `break outer`. -/
def innerBreakOuterLoop : AstNode :=
  .loop none none (.block
    [.expression (.assign "k" (.binary .add (.ident "k") (.value (.number 1)))),
     .expression (.breakNode (some "outer"))] true)

/-- A loop labeled `outer` whose body runs the unlabeled inner loop
above and then an unlabeled break (the escape the code actually needs,
since the labeled break never reaches this loop). -/
def outerLabeledLoop : AstNode :=
  .loop (some "outer") none (.block
    [.expression innerBreakOuterLoop, .expression (.breakNode none)] true)

/-- `k = 0` followed by the nested loops: the program of the break
scenario. -/
def nestedBreakProgram : AstNode :=
  .block [.expression (.assign "k" (.value (.number 0))),
          .expression outerLabeledLoop] false

/-!
## Helper lemmas
-/

/-- `LocalStack.set` never touches the marker stack. -/
theorem LocalStack.set_markers (s : LocalStack) (n : String) (v : Value) :
    (s.set n v).markers = s.markers := by
  unfold LocalStack.set
  split <;> rfl

/-- Binding call parameters never touches the marker stack. -/
theorem bindParams_markers (ps : List String) (vs : List Value) (ls : LocalStack) :
    (bindParams ps vs ls).markers = ls.markers := by
  unfold bindParams
  generalize ps.zip vs = l
  induction l generalizing ls with
  | nil => rfl
  | cons hd tl ih =>
    rw [List.foldl_cons, ih, LocalStack.set_markers]

/-- Rebinding in place preserves the number of bindings. -/
theorem rebindNearest_length (n : String) (v : Value) (ls : List (String × Value)) :
    (rebindNearest n v ls).length = ls.length := by
  induction ls with
  | nil => rfl
  | cons hd tl ih =>
    unfold rebindNearest
    split <;> simp [ih]

/-- Popping a stack whose top marker is known. -/
theorem LocalStack.pop?_eq (s : LocalStack) (m : Nat) (rest : List Nat)
    (h : s.markers = m :: rest) :
    s.pop? = some ⟨rest, s.locals.drop (s.locals.length - m)⟩ := by
  unfold LocalStack.pop?
  rw [h]

/-- `popThen` on a successful body with a known top marker. -/
theorem popThen_ok (v : Value) (st5 : VMState) (m : Nat) (rest : List Nat)
    (hm : st5.locals.markers = m :: rest) :
    popThen (.ok v st5) =
      .ok v { st5 with locals :=
        ⟨rest, st5.locals.locals.drop (st5.locals.locals.length - m)⟩ } := by
  rw [show popThen (.ok v st5) =
      (match st5.locals.pop? with
        | some ls => .ok v { st5 with locals := ls }
        | none => .fatal) from rfl,
    LocalStack.pop?_eq st5.locals m rest hm]

/-- `popThen` on a failed body never yields `Ok`. -/
theorem popThen_err_ne_ok (e : RuntimeError) (st5 : VMState) (v : Value)
    (st' : VMState) :
    popThen (.err e st5) ≠ .ok v st' := by
  intro h
  rw [show popThen (.err e st5) =
      (match st5.locals.pop? with
        | some ls => .err e { st5 with locals := ls }
        | none => .fatal) from rfl] at h
  cases hpop : st5.locals.pop? with
  | some ls => rw [hpop] at h; simp at h
  | none => rw [hpop] at h; simp at h

/-- If a name is bound somewhere in the binding list, rebinding it and
then looking it up yields the new value. -/
theorem get_rebindNearest (n : String) (v : Value) (ls : List (String × Value))
    (h : ls.any (fun l => l.1 == n) = true) :
    LocalStack.get ⟨[], rebindNearest n v ls⟩ n = v := by
  induction ls with
  | nil => simp at h
  | cons hd tl ih =>
    unfold rebindNearest
    by_cases hh : hd.1 == n
    · simp only [hh, if_true]
      unfold LocalStack.get
      simp [List.find?, hh]
    · simp only [hh, if_false]
      simp only [List.any_cons, hh, Bool.false_or] at h
      have := ih h
      unfold LocalStack.get at this ⊢
      simp only [List.find?, hh] at this ⊢
      exact this

/-- An unbound name has no entry to find. -/
theorem find?_none_of_any_false (n : String) (ls : List (String × Value))
    (h : ls.any (fun l => l.1 == n) = false) :
    ls.find? (fun l => l.1 == n) = none := by
  induction ls with
  | nil => rfl
  | cons hd tl ih =>
    simp only [List.any_cons, Bool.or_eq_false_iff] at h
    simp only [List.find?, h.1]
    exact ih h.2

/-- `get` on an unbound name yields `Nil`. -/
theorem LocalStack.get_of_not_has (s : LocalStack) (n : String)
    (h : s.has n = false) :
    s.get n = .nil := by
  unfold LocalStack.get
  rw [find?_none_of_any_false n s.locals h]

/-- If the evaluator preserves markers on success, so does the
argument loop. -/
theorem runArgs_ok_markers
    (ev : VMState → AstNode → Res Value)
    (hev : ∀ st a v st', ev st a = .ok v st' →
      st'.locals.markers = st.locals.markers) :
    ∀ (args : List AstNode) (st : VMState) (vs : List Value) (st' : VMState),
      runArgs ev args st = .ok vs st' →
      st'.locals.markers = st.locals.markers := by
  intro args
  induction args with
  | nil =>
    intro st vs st' h
    simp only [runArgs] at h
    cases h
    rfl
  | cons a rest ih =>
    intro st vs st' h
    simp only [runArgs] at h
    cases h1 : ev st a with
    | ok v st1 =>
      rw [h1] at h
      simp only [Res.bind] at h
      cases h2 : runArgs ev rest st1 with
      | ok vs2 st2 =>
        rw [h2] at h
        simp only [Res.bind] at h
        injection h with hv hst
        subst hst
        rw [ih st1 vs2 st2 h2, hev st a v st1 h1]
      | err e st2 => rw [h2] at h; simp [Res.bind] at h
      | fatal => rw [h2] at h; simp [Res.bind] at h
      | timeout => rw [h2] at h; simp [Res.bind] at h
    | err e st1 => rw [h1] at h; simp [Res.bind] at h
    | fatal => rw [h1] at h; simp [Res.bind] at h
    | timeout => rw [h1] at h; simp [Res.bind] at h

/-- If the evaluator preserves markers on success, so does the
statement loop. -/
theorem runStmts_ok_markers
    (ev : VMState → AstNode → Res Value)
    (hev : ∀ st a v st', ev st a = .ok v st' →
      st'.locals.markers = st.locals.markers) :
    ∀ (stmts : List Statement) (out : Value) (st : VMState) (v : Value) (st' : VMState),
      runStmts ev stmts out st = .ok v st' →
      st'.locals.markers = st.locals.markers := by
  intro stmts
  induction stmts with
  | nil =>
    intro out st v st' h
    simp only [runStmts] at h
    cases h
    rfl
  | cons s rest ih =>
    intro out st v st' h
    cases s with
    | expression x =>
      simp only [runStmts] at h
      cases h1 : ev st x with
      | ok v1 st1 =>
        rw [h1] at h
        simp only [Res.bind] at h
        rw [ih v1 st1 v st' h, hev st x v1 st1 h1]
      | err e st1 => rw [h1] at h; simp [Res.bind] at h
      | fatal => rw [h1] at h; simp [Res.bind] at h
      | timeout => rw [h1] at h; simp [Res.bind] at h

/-- C2 (amended): whenever evaluation of any node RETURNS `Ok`, every
scope pushed along the way — by a scoped `Block` or by a user-function
invocation — has been popped exactly once, so the `LocalStack` marker
stack is restored to its pre-entry state.  (The restoration does NOT
extend to error propagation: see the counterexample theorem, where an
erroring statement inside a scoped block, or an argument-count
mismatch, leaves the pushed marker behind.) -/
theorem exec_ok_preserves_markers :
    ∀ (fuel : Nat) (st : VMState) (a : AstNode) (v : Value) (st' : VMState),
      exec fuel st a = .ok v st' → st'.locals.markers = st.locals.markers := by
  intro fuel
  induction fuel with
  | zero =>
    intro st a v st' h
    simp only [exec] at h
    exact Res.noConfusion h
  | succ fuel ih =>
    intro st a v st' h
    cases a with
    | value v2 =>
      simp only [exec] at h
      injection h with h1 h2
      subst h2
      rfl
    | ident i =>
      simp only [exec] at h
      injection h with h1 h2
      subst h2
      rfl
    | breakNode label =>
      simp only [exec] at h
      injection h with h1 h2
      subst h2
      rfl
    | error =>
      simp only [exec] at h
      exact Res.noConfusion h
    | assign n v2 =>
      simp only [exec] at h
      cases h1 : exec fuel st v2 with
      | ok val st1 =>
        rw [h1] at h
        simp only [Res.bind] at h
        injection h with hv hst
        subst hst
        show (st1.locals.set n val).markers = st.locals.markers
        rw [LocalStack.set_markers, ih st v2 val st1 h1]
      | err e st1 => rw [h1] at h; simp [Res.bind] at h
      | fatal => rw [h1] at h; simp [Res.bind] at h
      | timeout => rw [h1] at h; simp [Res.bind] at h
    | unary op a1 =>
      simp only [exec] at h
      cases h1 : exec fuel st a1 with
      | ok v1 st1 =>
        rw [h1] at h
        simp only [Res.bind] at h
        cases h2 : applyUnOp op v1 with
        | ok r =>
          rw [h2] at h
          injection h with hv hst
          subst hst
          exact ih st a1 v1 st1 h1
        | error e => rw [h2] at h; simp at h
      | err e st1 => rw [h1] at h; simp [Res.bind] at h
      | fatal => rw [h1] at h; simp [Res.bind] at h
      | timeout => rw [h1] at h; simp [Res.bind] at h
    | binary op a1 b1 =>
      simp only [exec] at h
      cases h1 : exec fuel st a1 with
      | ok va st1 =>
        rw [h1] at h
        simp only [Res.bind] at h
        cases h2 : exec fuel st1 b1 with
        | ok vb st2 =>
          rw [h2] at h
          simp only [Res.bind] at h
          cases h3 : applyBinOp op va vb with
          | ok r =>
            rw [h3] at h
            injection h with hv hst
            subst hst
            rw [ih st1 b1 vb st2 h2, ih st a1 va st1 h1]
          | error e => rw [h3] at h; simp at h
        | err e st2 => rw [h2] at h; simp [Res.bind] at h
        | fatal => rw [h2] at h; simp [Res.bind] at h
        | timeout => rw [h2] at h; simp [Res.bind] at h
      | err e st1 => rw [h1] at h; simp [Res.bind] at h
      | fatal => rw [h1] at h; simp [Res.bind] at h
      | timeout => rw [h1] at h; simp [Res.bind] at h
    | ifExpr cond then_ or_ =>
      simp only [exec] at h
      cases h1 : exec fuel st cond with
      | ok c st1 =>
        rw [h1] at h
        simp only [Res.bind] at h
        cases hc : c.truthy with
        | true =>
          rw [hc] at h
          simp only [if_true] at h
          rw [ih st1 then_ v st' h, ih st cond c st1 h1]
        | false =>
          rw [hc] at h
          simp only [Bool.false_eq_true, if_false] at h
          cases or_ with
          | some o =>
            simp only at h
            rw [ih st1 o v st' h, ih st cond c st1 h1]
          | none =>
            simp only at h
            injection h with hv hst
            subst hst
            exact ih st cond c st1 h1
      | err e st1 => rw [h1] at h; simp [Res.bind] at h
      | fatal => rw [h1] at h; simp [Res.bind] at h
      | timeout => rw [h1] at h; simp [Res.bind] at h
    | block stmts isScoped =>
      cases isScoped with
      | false =>
        simp only [exec, Bool.false_eq_true, if_false] at h
        cases h1 : runStmts (exec fuel) stmts .nil st with
        | ok out st2 =>
          rw [h1] at h
          simp only [Res.bind] at h
          injection h with hv hst
          subst hst
          exact runStmts_ok_markers (exec fuel) ih stmts .nil st out st2 h1
        | err e st2 => rw [h1] at h; simp [Res.bind] at h
        | fatal => rw [h1] at h; simp [Res.bind] at h
        | timeout => rw [h1] at h; simp [Res.bind] at h
      | true =>
        simp only [exec, if_true] at h
        cases h1 : runStmts (exec fuel) stmts .nil
            { st with locals := st.locals.push } with
        | ok out st2 =>
          rw [h1] at h
          simp only [Res.bind] at h
          have hm : st2.locals.markers =
              st.locals.locals.length :: st.locals.markers := by
            rw [runStmts_ok_markers (exec fuel) ih stmts .nil _ out st2 h1]
            rfl
          rw [LocalStack.pop?_eq st2.locals st.locals.locals.length
            st.locals.markers hm] at h
          simp only at h
          injection h with hv hst
          subst hst
          rfl
        | err e st2 => rw [h1] at h; simp [Res.bind] at h
        | fatal => rw [h1] at h; simp [Res.bind] at h
        | timeout => rw [h1] at h; simp [Res.bind] at h
    | loop label cond run =>
      simp only [exec] at h
      cases hb : breakMatches label st.exitFlag with
      | true =>
        rw [hb] at h
        simp only [if_true] at h
        injection h with hv hst
        subst hst
        rfl
      | false =>
        rw [hb] at h
        simp only [Bool.false_eq_true, if_false] at h
        cases cond with
        | some c =>
          simp only at h
          cases h1 : exec fuel st c with
          | ok v1 st1 =>
            rw [h1] at h
            simp only [Res.bind] at h
            cases hv1 : v1.truthy with
            | true =>
              rw [hv1] at h
              simp only [if_true] at h
              cases h2 : exec fuel st1 run with
              | ok v2 st2 =>
                rw [h2] at h
                simp only [Res.bind] at h
                rw [ih st2 (.loop label (some c) run) v st' h,
                  ih st1 run v2 st2 h2, ih st c v1 st1 h1]
              | err e st2 => rw [h2] at h; simp [Res.bind] at h
              | fatal => rw [h2] at h; simp [Res.bind] at h
              | timeout => rw [h2] at h; simp [Res.bind] at h
            | false =>
              rw [hv1] at h
              simp only [Bool.false_eq_true, if_false] at h
              rw [ih st1 (.loop label (some c) run) v st' h, ih st c v1 st1 h1]
          | err e st1 => rw [h1] at h; simp [Res.bind] at h
          | fatal => rw [h1] at h; simp [Res.bind] at h
          | timeout => rw [h1] at h; simp [Res.bind] at h
        | none =>
          simp only at h
          cases h1 : exec fuel st run with
          | ok v1 st1 =>
            rw [h1] at h
            simp only [Res.bind] at h
            rw [ih st1 (.loop label none run) v st' h, ih st run v1 st1 h1]
          | err e st1 => rw [h1] at h; simp [Res.bind] at h
          | fatal => rw [h1] at h; simp [Res.bind] at h
          | timeout => rw [h1] at h; simp [Res.bind] at h
    | call f args =>
      simp only [exec] at h
      cases h1 : exec fuel st f with
      | ok fv st1 =>
        rw [h1] at h
        simp only [Res.bind] at h
        cases h2 : runArgs (exec fuel) args st1 with
        | ok vs st2 =>
          rw [h2] at h
          simp only [Res.bind] at h
          have hm2 : st2.locals.markers = st.locals.markers := by
            rw [runArgs_ok_markers (exec fuel) ih args st1 vs st2 h2,
              ih st f fv st1 h1]
          cases fv with
          | function fn =>
            cases fn with
            | mk nm params body =>
              simp only at h
              by_cases hlen : vs.length = params.length
              · rw [if_neg (not_not_intro hlen)] at h
                cases h3 : exec fuel
                    { st2 with locals := bindParams params vs st2.locals.push } body with
                | ok v5 st5 =>
                  rw [h3] at h
                  have hm5 : st5.locals.markers =
                      st2.locals.locals.length :: st2.locals.markers := by
                    rw [ih _ body v5 st5 h3, bindParams_markers]
                    rfl
                  rw [popThen_ok v5 st5 st2.locals.locals.length
                    st2.locals.markers hm5] at h
                  injection h with hv hst
                  subst hst
                  exact hm2
                | err e st5 =>
                  rw [h3] at h
                  exact absurd h (popThen_err_ne_ok e st5 v st')
                | fatal => rw [h3] at h; simp [popThen] at h
                | timeout => rw [h3] at h; simp [popThen] at h
              · rw [if_pos hlen] at h
                simp at h
          | number n => simp only at h; simp at h
          | string s => simp only at h; simp at h
          | bool b => simp only at h; simp at h
          | array xs => simp only at h; simp at h
          | map es => simp only at h; simp at h
          | nil => simp only at h; simp at h
        | err e st2 => rw [h2] at h; simp [Res.bind] at h
        | fatal => rw [h2] at h; simp [Res.bind] at h
        | timeout => rw [h2] at h; simp [Res.bind] at h
      | err e st1 => rw [h1] at h; simp [Res.bind] at h
      | fatal => rw [h1] at h; simp [Res.bind] at h
      | timeout => rw [h1] at h; simp [Res.bind] at h

/-!
## Claim theorems
-/

/-- C1 counterexample: a labeled `break outer` executed inside an
UNLABELED loop terminates that unlabeled loop and clears the flag
(first run: `Ok` with the flag back to `Continue`), whereas the claim
says a labeled `Break` terminates only a loop carrying the same label
and merely propagates past unlabeled loops.  In the claim's own nested
scenario (second run), the whole program terminates with `k = 1`: the
inner unlabeled loop ran its body exactly once and was terminated by
`break outer` — under the claimed semantics that break would not
terminate the inner loop, whose body would run again (`k ≥ 2`). -/
theorem loop_break_labeled_cex :
    exec 10 ⟨⟨[], []⟩, .cont⟩
      (.loop none none
        (.block [.expression (.breakNode (some "outer"))] true)) =
      .ok .nil ⟨⟨[], []⟩, .cont⟩
    ∧ exec 50 ⟨⟨[], []⟩, .cont⟩ nestedBreakProgram =
      .ok .nil ⟨⟨[], [("k", .number 1)]⟩, .cont⟩ :=
  ⟨rfl, rfl⟩

/-- C1 (amended): at the top of a loop iteration, a pending `Break`
flag terminates the loop and is cleared whenever the break is
unlabeled, OR the loop is unlabeled, OR the labels coincide — i.e. a
labeled break is consumed by the nearest enclosing loop that is
unlabeled or carries the same label, and therefore does not propagate
past an unlabeled inner loop to a labeled outer one. -/
theorem loop_break_match_amended (fuel : Nat) (st : VMState)
    (label elabel : Option String) (cond : Option AstNode) (run : AstNode)
    (hflag : st.exitFlag = .brk elabel)
    (hmatch : label = none ∨ elabel = none ∨ label = elabel) :
    exec (fuel + 1) st (.loop label cond run) =
      .ok .nil { st with exitFlag := .cont } := by
  have hb : breakMatches label st.exitFlag = true := by
    rw [hflag]
    unfold breakMatches
    rcases hmatch with h | h | h
    · subst h; cases elabel <;> rfl
    · subst h; cases label <;> rfl
    · subst h
      cases label with
      | none => rfl
      | some l => simp
  simp only [exec, hb, if_true]

/-- Witness for `loop_break_match_amended` at a concrete state: a loop
with no label, entered while the flag is `Break("outer")`, terminates
at once and clears the flag. -/
theorem loop_break_match_amended_witness :
    (⟨⟨[], []⟩, .brk (some "outer")⟩ : VMState).exitFlag =
      .brk (some "outer")
    ∧ exec 1 ⟨⟨[], []⟩, .brk (some "outer")⟩
        (.loop none none (.value .nil)) =
      .ok .nil ⟨⟨[], []⟩, .cont⟩ :=
  ⟨rfl, loop_break_match_amended 0 ⟨⟨[], []⟩, .brk (some "outer")⟩
    none (some "outer") none (.value .nil) rfl (Or.inl rfl)⟩

/-- C2 counterexample: a `RuntimeError` inside a scoped block
propagates past the trailing pop (the `?` operator returns early), and
the `IncorrectNumberOfArgs` path of a call returns after the push but
before any pop; both runs end with the pushed marker `[0]` still on a
marker stack that was `[]` on entry. -/
theorem scope_leak_on_error_cex :
    exec 3 ⟨⟨[], []⟩, .cont⟩
      (.block [.expression (.binary .sub (.value .nil) (.value .nil))] true) =
      .err .notANumber ⟨⟨[0], []⟩, .cont⟩
    ∧ exec 3 ⟨⟨[], []⟩, .cont⟩
      (.call (.value (.function (.mk none [] (.value .nil)))) [.value .nil]) =
      .err .incorrectNumberOfArgs ⟨⟨[0], []⟩, .cont⟩
    ∧ ([0] : List Nat) ≠ ([] : List Nat) :=
  ⟨rfl, rfl, by simp⟩

/-- Witness for `exec_ok_preserves_markers`: a successful scoped block
returns with the marker stack restored. -/
theorem scope_balance_witness :
    exec 2 ⟨⟨[], []⟩, .cont⟩ (.block [] true) = .ok .nil ⟨⟨[], []⟩, .cont⟩
    ∧ (⟨⟨[], []⟩, .cont⟩ : VMState).locals.markers =
      (⟨⟨[], []⟩, .cont⟩ : VMState).locals.markers :=
  ⟨rfl, exec_ok_preserves_markers 2 ⟨⟨[], []⟩, .cont⟩ (.block [] true)
    .nil ⟨⟨[], []⟩, .cont⟩ rfl⟩

/-- C3: `And`/`Or` evaluate BOTH operands, left before right,
regardless of the left operand's truth value, and combine the results
by boolean and/or of their truthiness; the final state is the state
after evaluating the right operand, so its side effects always occur. -/
theorem and_or_no_short_circuit (fuel : Nat) (st st1 st2 : VMState)
    (a b : AstNode) (va vb : Value)
    (ha : exec fuel st a = .ok va st1) (hb : exec fuel st1 b = .ok vb st2) :
    exec (fuel + 1) st (.binary .and a b) =
      .ok (.bool (va.truthy && vb.truthy)) st2
    ∧ exec (fuel + 1) st (.binary .or a b) =
      .ok (.bool (va.truthy || vb.truthy)) st2 := by
  constructor <;> (simp only [exec, ha, hb, Res.bind]; try rfl)

/-- Witness for `and_or_no_short_circuit`: `false && (s = 1)` still
performs the assignment — the final scope binds `s`. -/
theorem and_or_no_short_circuit_witness :
    exec 2 ⟨⟨[], []⟩, .cont⟩ (.value (.bool false)) =
      .ok (.bool false) ⟨⟨[], []⟩, .cont⟩
    ∧ exec 2 ⟨⟨[], []⟩, .cont⟩ (.assign "s" (.value (.number 1))) =
      .ok .nil ⟨⟨[], [("s", .number 1)]⟩, .cont⟩
    ∧ exec 3 ⟨⟨[], []⟩, .cont⟩
        (.binary .and (.value (.bool false))
          (.assign "s" (.value (.number 1)))) =
      .ok (.bool false) ⟨⟨[], [("s", .number 1)]⟩, .cont⟩
    ∧ LocalStack.get ⟨[], [("s", .number 1)]⟩ "s" = .number 1 :=
  ⟨rfl, rfl,
    (and_or_no_short_circuit 2 ⟨⟨[], []⟩, .cont⟩ ⟨⟨[], []⟩, .cont⟩
      ⟨⟨[], [("s", .number 1)]⟩, .cont⟩ (.value (.bool false))
      (.assign "s" (.value (.number 1))) (.bool false) .nil rfl rfl).1,
    rfl⟩

/-- C5: the lexer's keyword table classifies only the twelve words
`let const pub use func enum struct if else true false nil`; the words
`loop` and `break` fall through to `Identifier`, and no
identifier-shaped lexeme ever produces the `Loop`/`Break` keyword
tokens that `parse.rs` dispatches on. -/
theorem lexer_loop_break_identifier :
    classifyWord "loop" = .Identifier "loop"
    ∧ classifyWord "break" = .Identifier "break"
    ∧ (∀ s : String, classifyWord s ≠ Token.Loop ∧ classifyWord s ≠ Token.Break) := by
  refine ⟨rfl, rfl, fun s => ⟨?_, ?_⟩⟩ <;>
    (unfold classifyWord; split <;> simp)

/-- C6 counterexample: the chained source `a = b = c` does NOT parse
as `a = (b = c)` with zero diagnostics; the parser folds the first
assignment into the left-hand side of the second, whose target is then
not a plain identifier, producing one "invalid assignment target"
diagnostic and an `Error` placeholder statement (followed by `c` as
its own statement). -/
theorem assign_chain_diagnostic_cex :
    parsedRoot (parseAll 100 chainToks) =
      some (.block [.expression .error, .expression (.ident "c")] false)
    ∧ parsedDiags (parseAll 100 chainToks) =
      some [⟨⟨6, 7⟩, "invalid assignment target"⟩] :=
  ⟨rfl, rfl⟩

/-- C6 (amended): assignment parses its right-hand side at a minimum
precedence ABOVE its own level (`current.prec + 1`), so chains
associate to the left and the second `=` sees a non-identifier target;
an assignment whose left-hand side is a plain identifier is accepted
with zero diagnostics (`a = b` below), and any other left-hand side
records an "invalid assignment target" diagnostic and yields an
`Error` node — a diagnostic, never a crash. -/
theorem assign_left_assoc_amended (fuel rhsPrec : Nat) (lhs : AstNode)
    (st : ParserSt) (hni : ∀ s, lhs ≠ .ident s) :
    assignFn (fuel + 1) lhs rhsPrec st =
      .ok .error (st.pushErr "invalid assignment target")
    ∧ parsedRoot (parseAll 100 simpleAssignToks) =
      some (.block [.expression (.assign "a" (.ident "b"))] false)
    ∧ parsedDiags (parseAll 100 simpleAssignToks) = some [] := by
  refine ⟨?_, rfl, rfl⟩
  simp only [assignFn, parseStep]

/-- Witness for `assign_left_assoc_amended` at a concrete non-identifier
left-hand side. -/
theorem assign_left_assoc_amended_witness :
    assignFn 1 (.value .nil) 2 (ParserSt.new []) =
      .ok .error ((ParserSt.new []).pushErr "invalid assignment target")
    ∧ parsedRoot (parseAll 100 simpleAssignToks) =
      some (.block [.expression (.assign "a" (.ident "b"))] false)
    ∧ parsedDiags (parseAll 100 simpleAssignToks) = some [] :=
  assign_left_assoc_amended 0 2 (.value .nil) (ParserSt.new [])
    (fun _ h => AstNode.noConfusion h)

/-- C7: on the input `func f(a b) {}` — a parameter list whose
parameters are not separated by commas — `parse_all` PANICS (the
parameter loop's `assert_eq!(self.next, Token::Comma)` fails) instead
of recording a diagnostic and continuing. -/
theorem func_params_missing_comma_panics :
    parseAll 100 funcParamToks = .panicked := rfl

/-- C8 counterexample: with `x` bound to `0` in the enclosing scope,
`push(); set("x", 1); pop()` leaves `get("x") = 1`, not the pre-push
value `0`: `set` rebinds the enclosing binding in place and the
mutation survives the pop. -/
theorem localstack_roundtrip_cex :
    (((⟨[], [("x", .number 0)]⟩ : LocalStack).push).set "x" (.number 1)).pop? =
      some ⟨[], [("x", .number 1)]⟩
    ∧ LocalStack.get ⟨[], [("x", .number 1)]⟩ "x" = .number 1
    ∧ LocalStack.get ⟨[], [("x", .number 0)]⟩ "x" = .number 0
    ∧ Value.number 1 ≠ Value.number 0 :=
  ⟨rfl, rfl, rfl, by
    intro h
    injection h with h1
    exact absurd h1 (by decide)⟩

/-- C8 (amended): after `push(); set(x, v); pop()` — if `x` was unbound
before the push, the whole stack (hence `get x`) returns exactly to its
pre-push state; if `x` was bound in an enclosing scope, `set` mutates
that enclosing binding in place, the mutation survives the pop, and
`get x` afterwards returns `v`, not the pre-push value. -/
theorem localstack_roundtrip_amended (s : LocalStack) (name : String) (v : Value) :
    (s.has name = false → ((s.push).set name v).pop? = some s)
    ∧ (s.has name = true →
        ((s.push).set name v).pop? =
          some ⟨s.markers, rebindNearest name v s.locals⟩
        ∧ LocalStack.get ⟨s.markers, rebindNearest name v s.locals⟩ name = v) := by
  constructor
  · intro h
    have h' : (s.push).locals.any (fun l => l.1 == name) = false := h
    unfold LocalStack.set
    rw [h']
    simp only [Bool.false_eq_true, if_false]
    unfold LocalStack.pop? LocalStack.push
    simp [Nat.add_sub_cancel_left]
  · intro h
    have h' : (s.push).locals.any (fun l => l.1 == name) = true := h
    constructor
    · unfold LocalStack.set
      rw [h']
      simp only [if_true]
      unfold LocalStack.pop? LocalStack.push
      simp [rebindNearest_length]
    · exact get_rebindNearest name v s.locals h

/-- Witness for `localstack_roundtrip_amended`: the unbound case
restores the empty stack; the enclosing-binding case keeps the new
value after the pop. -/
theorem localstack_roundtrip_amended_witness :
    (((⟨[], []⟩ : LocalStack).push).set "x" (.number 1)).pop? =
      some ⟨[], []⟩
    ∧ (((⟨[], [("x", .number 0)]⟩ : LocalStack).push).set "x" (.number 1)).pop? =
      some ⟨[], [("x", .number 1)]⟩ :=
  ⟨(localstack_roundtrip_amended ⟨[], []⟩ "x" (.number 1)).1 rfl,
   ((localstack_roundtrip_amended ⟨[], [("x", .number 0)]⟩ "x"
     (.number 1)).2 rfl).1⟩

/-- C9: an `Ident` whose name is unbound evaluates to `Ok(Nil)` with the
state untouched (never an error), and an `Access` whose left operand
evaluates to a map lacking the key evaluates to `Ok(Nil)` with the state
exactly as the operand evaluations left it — no key error, no mutation
of the scope stack or the map. -/
theorem lenient_lookup_nil (fuel : Nat) (st st1 st2 : VMState) (name : String)
    (a b : AstNode) (entries : List (Value × Value)) (k : Value)
    (hunbound : st.locals.has name = false)
    (ha : exec fuel st a = .ok (.map entries) st1)
    (hb : exec fuel st1 b = .ok k st2)
    (hmissing : mapGet entries k = none) :
    exec (fuel + 1) st (.ident name) = .ok .nil st
    ∧ exec (fuel + 1) st (.binary .access a b) = .ok .nil st2 := by
  constructor
  · simp only [exec]
    rw [LocalStack.get_of_not_has st.locals name hunbound]
  · simp only [exec, ha, hb, Res.bind]
    rw [show applyBinOp .access (.map entries) k =
        (match mapGet entries k with
          | some v => Except.ok v
          | none => Except.ok Value.nil) from rfl, hmissing]

/-- Witness for `lenient_lookup_nil` on the empty scope stack and the
empty map. -/
theorem lenient_lookup_nil_witness :
    exec 2 ⟨⟨[], []⟩, .cont⟩ (.ident "z") = .ok .nil ⟨⟨[], []⟩, .cont⟩
    ∧ exec 2 ⟨⟨[], []⟩, .cont⟩
        (.binary .access (.value (.map [])) (.value (.string "k"))) =
      .ok .nil ⟨⟨[], []⟩, .cont⟩ :=
  lenient_lookup_nil 1 ⟨⟨[], []⟩, .cont⟩ ⟨⟨[], []⟩, .cont⟩ ⟨⟨[], []⟩, .cont⟩
    "z" (.value (.map [])) (.value (.string "k")) [] (.string "k")
    rfl rfl rfl rfl

/-- C10: invoking a user function pushes a scope and binds each
parameter with `set`; when the parameter's name is already bound in an
enclosing scope, `set` rebinds that enclosing binding in place, and the
overwrite survives the call's pop: after the call returns, the stack
carries `rebindNearest p v` of the original bindings with the original
markers, and `get p` yields the argument value. -/
theorem call_param_overwrites_enclosing (fuel : Nat) (st : VMState)
    (p : String) (v : Value) (hbound : st.locals.has p = true) :
    exec (fuel + 2) st
      (.call (.value (.function (.mk none [p] (.value .nil)))) [.value v]) =
      .ok .nil { st with locals := ⟨st.locals.markers,
        rebindNearest p v st.locals.locals⟩ }
    ∧ LocalStack.get ⟨st.locals.markers, rebindNearest p v st.locals.locals⟩ p = v := by
  constructor
  · simp only [exec, runArgs, Res.bind]
    rw [if_neg (show ¬([v].length ≠ [p].length) from not_not_intro rfl)]
    rw [show bindParams [p] [v] (st.locals.push) = (st.locals.push).set p v from rfl]
    have h' : (st.locals.push).locals.any (fun l => l.1 == p) = true := hbound
    unfold LocalStack.set
    rw [h']
    simp only [if_true]
    show popThen (.ok .nil
        ⟨⟨st.locals.locals.length :: st.locals.markers,
          rebindNearest p v st.locals.locals⟩, st.exitFlag⟩) =
      .ok .nil ⟨⟨st.locals.markers, rebindNearest p v st.locals.locals⟩,
        st.exitFlag⟩
    rw [popThen_ok .nil
      ⟨⟨st.locals.locals.length :: st.locals.markers,
        rebindNearest p v st.locals.locals⟩, st.exitFlag⟩
      st.locals.locals.length st.locals.markers rfl]
    simp [rebindNearest_length]
  · exact get_rebindNearest p v st.locals.locals hbound

/-- Witness for `call_param_overwrites_enclosing`: a global `g = 7`,
used as the parameter name of a called function, still holds the
argument `9` after the call returns. -/
theorem call_param_overwrites_enclosing_witness :
    exec 5 ⟨⟨[], [("g", .number 7)]⟩, .cont⟩
      (.call (.value (.function (.mk none ["g"] (.value .nil))))
        [.value (.number 9)]) =
      .ok .nil ⟨⟨[], [("g", .number 9)]⟩, .cont⟩
    ∧ LocalStack.get ⟨[], [("g", .number 9)]⟩ "g" = .number 9 :=
  call_param_overwrites_enclosing 3 ⟨⟨[], [("g", .number 7)]⟩, .cont⟩
    "g" (.number 9) rfl
